import Mathlib

/-!
Verification of the two synchronisation protocols of the repository:
`src/birthday.cpp` (the Counting Protocol) and `src/crystalVase.cpp` (the
Mutual-Exclusion Protocol), embedded as state machines.

* Counting Protocol: every read and write of the shared variables
  `guestsPicked`, `isCupcakeAvailable` and `currentCount` inside the loops
  happens between `mutex.lock()` and `mutex.unlock()`, so one critical section
  is one atomic transition.  `activeThreadIndex` is written by the driver
  without synchronisation and read exactly once per critical section; the value
  read is an argument of the transition.  The loop guards
  `currentCount < NUM_GUESTS` are evaluated outside the lock, so a critical
  section may still run after the counter has changed: runs are arbitrary
  sequences of critical sections.
* Mutual-Exclusion Protocol: one transition per statement of `admireVase`, with
  the mutex holder and one program point per thread in the state; the read of
  `guestsVisited.size()` in the loop guard is one such transition.

`NUM_GUESTS` is a parameter `N` of the definitions (50 in both sources).
`currentCount` is an `int`; it is a `Nat` here, and the first theorem on the
Counting Protocol bounds it by `N` on every reachable state, so no increment
of the source overflows.  Console output is left out.
-/

/-! ## The Counting Protocol -/

namespace Birthday

/-- Shared variables of `birthday.cpp` (lines 23-26): `guestsPicked` is the
`std::array<bool, NUM_GUESTS>`, entry `i` at position `i`. -/
structure State where
  guestsPicked : List Bool
  isCupcakeAvailable : Bool
  currentCount : Nat
deriving DecidableEq, Repr

/-- Static initialisation: the global array is zero-initialised,
`isCupcakeAvailable = true`, `currentCount = 0`. -/
def init (N : Nat) : State :=
  { guestsPicked := List.replicate N false, isCupcakeAvailable := true, currentCount := 0 }

/-- The read `guestsPicked[i]`. -/
def State.picked (s : State) (i : Nat) : Bool :=
  s.guestsPicked.getD i false

/-- One critical section of `checkCupcake` (lines 41-56), the leader having
read `activeThreadIndex`.  The two `if` statements of lines 45 and 50 are
sequential: the second tests the state the first one leaves. -/
def checkCupcake (activeThreadIndex : Nat) (s : State) : State :=
  if activeThreadIndex = 0 then
    let s1 : State :=
      if !s.isCupcakeAvailable then
        { s with currentCount := s.currentCount + 1, isCupcakeAvailable := true }
      else s
    if s1.isCupcakeAvailable && !s1.picked 0 then
      { s1 with currentCount := s1.currentCount + 1, isCupcakeAvailable := true,
                guestsPicked := s1.guestsPicked.set 0 true }
    else s1
  else s

/-- One critical section of `navigateLabyrinth(threadIndex)` (lines 62-70), the
follower having read `activeThreadIndex`. -/
def navigateLabyrinth (threadIndex activeThreadIndex : Nat) (s : State) : State :=
  if activeThreadIndex = threadIndex && s.isCupcakeAvailable && !s.picked threadIndex then
    { s with isCupcakeAvailable := false, guestsPicked := s.guestsPicked.set threadIndex true }
  else s

/-- A critical section: which thread runs it and the `activeThreadIndex` it
observes.  Thread 0 runs `checkCupcake`, thread `i` runs `navigateLabyrinth(i)`. -/
inductive Visit where
  | leader (activeThreadIndex : Nat)
  | follower (threadIndex activeThreadIndex : Nat)
deriving DecidableEq, Repr

/-- The threads `main` starts: the leader, and followers `1 .. N-1` (line 80). -/
def Visit.valid (N : Nat) : Visit → Bool
  | .leader _ => true
  | .follower i _ => decide (1 ≤ i) && decide (i < N)

/-- Effect of one critical section. -/
def step (v : Visit) (s : State) : State :=
  match v with
  | .leader a => checkCupcake a s
  | .follower i a => navigateLabyrinth i a s

/-- Effect of a sequence of critical sections, in lock-acquisition order. -/
def run (s : State) (vs : List Visit) : State :=
  vs.foldl (fun st v => step v st) s

/-- Number of guests whose flag is set. -/
def State.numPicked (s : State) : Nat :=
  s.guestsPicked.count true

/-- One selection by the driver (line 85): the thread whose index is the
selected value runs its critical section once and observes that value.  The
driver draws from `[0, NUM_GUESTS]`; no thread has index `NUM_GUESTS`. -/
def select (N : Nat) (a : Nat) (s : State) : State :=
  if a = 0 then checkCupcake a s
  else if a < N then navigateLabyrinth a a s
  else s

/-- A driver sequence, from state `s`. -/
def drive (N : Nat) (s : State) (as : List Nat) : State :=
  as.foldl (fun st a => select N a st) s

/-- Number of steps of a run at which `guestsPicked[i]` goes from false to true. -/
def risingEdges (i : Nat) : State → List Visit → Nat
  | _, [] => 0
  | s, v :: vs =>
    (if s.picked i = false ∧ (step v s).picked i = true then 1 else 0)
      + risingEdges i (step v s) vs

/-- The array has its `N` entries, and the flags set are the guests counted,
plus the one whose cupcake the leader has not replaced yet. -/
def Inv (N : Nat) (s : State) : Prop :=
  s.guestsPicked.length = N ∧
  s.numPicked = s.currentCount + (if s.isCupcakeAvailable then 0 else 1)

/-- Progress measure of a run: guests counted, flags set, and one unit until
the leader has counted itself. -/
def progress (s : State) : Nat :=
  s.currentCount + s.numPicked + (if s.picked 0 then 0 else 1)

/-- Thread `j` would change the state if it were selected now. -/
def due (N : Nat) (s : State) (j : Nat) : Prop :=
  j < N ∧
  ((j = 0 ∧ (s.isCupcakeAvailable = false ∨ s.picked 0 = false)) ∨
   (0 < j ∧ s.isCupcakeAvailable = true ∧ s.picked j = false))

end Birthday

/-! ## The Mutual-Exclusion Protocol -/

namespace CrystalVase

/-- The sign on the showroom door (`enum Status`, lines 38-41). -/
inductive Status where
  | AVAILABLE
  | BUSY
deriving DecidableEq, Repr

/-- Program points of `admireVase`: the statement a thread executes next. -/
inductive Loc where
  /-- line 59, `while (guestsVisited.size() < NUM_GUESTS)` -/
  | loopTest
  /-- line 60, `mutex.lock()` -/
  | lock
  /-- line 62, the `if` -/
  | test
  /-- line 63, `roomStatus = Status::BUSY` -/
  | setBusy
  /-- lines 64-65, the message and `sleep_for` -/
  | hold
  /-- line 66, `roomStatus = Status::AVAILABLE` -/
  | setAvailable
  /-- line 68, `guestsVisited.insert(threadId)` -/
  | insert
  /-- line 71, `mutex.unlock()` -/
  | unlock
  /-- the function has returned -/
  | done
deriving DecidableEq, Repr

/-- Globals of `crystalVase.cpp` (lines 44-46), the holder of `mutex`, and the
program point of every thread.  A thread's `std::thread::id` is represented by
its index; `guestsVisited` lists the elements of the `unordered_set`. -/
structure State where
  guestsVisited : List Nat
  mutex : Option Nat
  roomStatus : Status
  pc : Nat → Loc

/-- Before any thread has run: empty set, free mutex, `AVAILABLE`, every thread
at the head of its loop. -/
def init : State :=
  { guestsVisited := [], mutex := none, roomStatus := Status.AVAILABLE,
    pc := fun _ => Loc.loopTest }

/-- Thread `t` moves to program point `l`. -/
def State.goto (s : State) (t : Nat) (l : Loc) : State :=
  { s with pc := fun u => if u = t then l else s.pc u }

/-- Thread `t` executes its next statement of `admireVase`.  `mutex.lock()` on
a held mutex blocks: the state is unchanged. -/
def admireVaseStep (N : Nat) (t : Nat) (s : State) : State :=
  match s.pc t with
  | Loc.loopTest =>
    if s.guestsVisited.length < N then s.goto t Loc.lock else s.goto t Loc.done
  | Loc.lock =>
    match s.mutex with
    | none => State.goto { s with mutex := some t } t Loc.test
    | some _ => s
  | Loc.test =>
    if s.roomStatus = Status.AVAILABLE ∧ t ∉ s.guestsVisited then s.goto t Loc.setBusy
    else s.goto t Loc.unlock
  | Loc.setBusy => State.goto { s with roomStatus := Status.BUSY } t Loc.hold
  | Loc.hold => s.goto t Loc.setAvailable
  | Loc.setAvailable => State.goto { s with roomStatus := Status.AVAILABLE } t Loc.insert
  | Loc.insert => State.goto { s with guestsVisited := s.guestsVisited.insert t } t Loc.unlock
  | Loc.unlock => State.goto { s with mutex := none } t Loc.loopTest
  | Loc.done => s

/-- A schedule: the threads in the order in which they execute a statement. -/
def exec (N : Nat) (s : State) (sched : List Nat) : State :=
  sched.foldl (fun st t => admireVaseStep N t st) s

/-- Between the thread's own `roomStatus = BUSY` and its own
`roomStatus = AVAILABLE`. -/
def Loc.inRoom : Loc → Bool
  | Loc.hold => true
  | Loc.setAvailable => true
  | _ => false

/-- Between `mutex.lock()` and `mutex.unlock()`. -/
def Loc.locked : Loc → Bool
  | Loc.test => true
  | Loc.setBusy => true
  | Loc.hold => true
  | Loc.setAvailable => true
  | Loc.insert => true
  | Loc.unlock => true
  | _ => false

/-- Inside the `if` of line 62, before the insertion has been done. -/
def Loc.visiting : Loc → Bool
  | Loc.setBusy => true
  | Loc.hold => true
  | Loc.setAvailable => true
  | Loc.insert => true
  | _ => false

/-- Number of critical sections thread `t` completes (executions of
`mutex.unlock()`) along a schedule. -/
def completions (N t : Nat) : State → List Nat → Nat
  | _, [] => 0
  | s, u :: sched =>
    (if u = t ∧ s.pc t = Loc.unlock then 1 else 0)
      + completions N t (admireVaseStep N u s) sched

/-- Invariant of the protocol. -/
structure Inv (s : State) : Prop where
  locked_iff : ∀ t, (s.pc t).locked = true ↔ s.mutex = some t
  free_available : s.mutex = none → s.roomStatus = Status.AVAILABLE
  busy_iff : ∀ t, s.mutex = some t → (s.roomStatus = Status.BUSY ↔ (s.pc t).inRoom = true)
  nodup : s.guestsVisited.Nodup
  unlock_mem : ∀ t, s.pc t = Loc.unlock → t ∈ s.guestsVisited
  visiting_not_mem : ∀ t, (s.pc t).visiting = true → t ∉ s.guestsVisited

end CrystalVase

/-! ## Lists of flags -/

namespace Birthday

theorem getD_set_true_self (l : List Bool) (i : Nat) (h : i < l.length) :
    (l.set i true).getD i false = true := by
  induction l generalizing i with
  | nil => simp at h
  | cons b l ih =>
    cases i with
    | zero => simp
    | succ i => simpa using ih i (by simpa using h)

theorem getD_set_of_ne (l : List Bool) (b : Bool) (i j : Nat) (h : j ≠ i) :
    (l.set i b).getD j false = l.getD j false := by
  induction l generalizing i j with
  | nil => simp
  | cons c l ih =>
    cases i with
    | zero =>
      cases j with
      | zero => exact absurd rfl h
      | succ j => simp
    | succ i =>
      cases j with
      | zero => simp
      | succ j => simpa using ih i j (by omega)

theorem getD_set_true_mono (l : List Bool) (i j : Nat) (h : l.getD j false = true) :
    (l.set i true).getD j false = true := by
  induction l generalizing i j with
  | nil => simp at h
  | cons c l ih =>
    cases i with
    | zero =>
      cases j with
      | zero => simp
      | succ j => simpa using h
    | succ i =>
      cases j with
      | zero => simpa using h
      | succ j => simpa using ih i j (by simpa using h)

theorem count_set_true (l : List Bool) (i : Nat) (h : i < l.length)
    (hi : l.getD i false = false) :
    (l.set i true).count true = l.count true + 1 := by
  induction l generalizing i with
  | nil => simp at h
  | cons c l ih =>
    cases i with
    | zero =>
      have hc : c = false := by simpa using hi
      subst hc
      simp
    | succ i =>
      have := ih i (by simpa using h) (by simpa using hi)
      cases c <;> simp [List.count_cons, this]

theorem exists_false_of_count_lt (l : List Bool) (h : l.count true < l.length) :
    ∃ i, i < l.length ∧ l.getD i false = false := by
  induction l with
  | nil => simp at h
  | cons c l ih =>
    cases c with
    | false => exact ⟨0, by simp, by simp⟩
    | true =>
      obtain ⟨i, hi, hf⟩ := ih (by simpa [List.count_cons] using h)
      exact ⟨i + 1, by simpa using hi, by simpa using hf⟩

theorem getD_true_of_count_eq (l : List Bool) (h : l.count true = l.length)
    (i : Nat) (hi : i < l.length) : l.getD i false = true := by
  by_contra hne
  have hf : l.getD i false = false := by simpa using hne
  have h1 := count_set_true l i hi hf
  have h2 : (l.set i true).count true ≤ (l.set i true).length := List.count_le_length _ _
  rw [List.length_set] at h2
  omega

end Birthday

/-! ## The Counting Protocol: effect of one critical section -/

namespace Birthday

theorem checkCupcake_of_ne (a : Nat) (s : State) (h : a ≠ 0) : checkCupcake a s = s := by
  simp [checkCupcake, h]

theorem checkCupcake_replace (s : State) (hc : s.isCupcakeAvailable = false)
    (hp : s.picked 0 = true) :
    checkCupcake 0 s = { s with currentCount := s.currentCount + 1, isCupcakeAvailable := true } := by
  simp [checkCupcake, hc, hp, State.picked] at *
  simp [hp]

theorem checkCupcake_both (s : State) (hc : s.isCupcakeAvailable = false)
    (hp : s.picked 0 = false) :
    checkCupcake 0 s = { s with currentCount := s.currentCount + 2, isCupcakeAvailable := true,
                                guestsPicked := s.guestsPicked.set 0 true } := by
  simp [checkCupcake, hc, hp, State.picked] at *
  simp [hp]

theorem checkCupcake_self (s : State) (hc : s.isCupcakeAvailable = true)
    (hp : s.picked 0 = false) :
    checkCupcake 0 s = { s with currentCount := s.currentCount + 1, isCupcakeAvailable := true,
                                guestsPicked := s.guestsPicked.set 0 true } := by
  simp [checkCupcake, hc, hp, State.picked] at *
  simp [hp]

theorem checkCupcake_idle (s : State) (hc : s.isCupcakeAvailable = true)
    (hp : s.picked 0 = true) : checkCupcake 0 s = s := by
  simp [checkCupcake, hc, hp, State.picked] at *
  simp [hp]

theorem navigateLabyrinth_claim (i a : Nat) (s : State) (ha : a = i)
    (hc : s.isCupcakeAvailable = true) (hp : s.picked i = false) :
    navigateLabyrinth i a s
      = { s with isCupcakeAvailable := false, guestsPicked := s.guestsPicked.set i true } := by
  simp [navigateLabyrinth, ha, hc, hp]

theorem navigateLabyrinth_idle (i a : Nat) (s : State)
    (h : a ≠ i ∨ s.isCupcakeAvailable = false ∨ s.picked i = true) :
    navigateLabyrinth i a s = s := by
  rcases h with h | h | h <;> simp [navigateLabyrinth, h]

end Birthday

/-! ## The Counting Protocol: the counting invariant -/

namespace Birthday

theorem inv_init (N : Nat) : Inv N (init N) := by
  simp [Inv, init, State.numPicked, List.count_replicate]

theorem inv_checkCupcake (N a : Nat) (s : State) (hN : 0 < N) (h : Inv N s) :
    Inv N (checkCupcake a s) := by
  obtain ⟨hlen, hcnt⟩ := h
  by_cases ha : a = 0
  · subst ha
    have h0 : 0 < s.guestsPicked.length := by omega
    cases hc : s.isCupcakeAvailable <;> cases hp : s.picked 0
    · rw [checkCupcake_both s hc hp]
      have := count_set_true s.guestsPicked 0 h0 hp
      simp [Inv, State.numPicked, hc] at *
      omega
    · rw [checkCupcake_replace s hc hp]
      simp [Inv, State.numPicked, hc] at *
      omega
    · rw [checkCupcake_self s hc hp]
      have := count_set_true s.guestsPicked 0 h0 hp
      simp [Inv, State.numPicked, hc] at *
      omega
    · rw [checkCupcake_idle s hc hp]
      exact ⟨hlen, hcnt⟩
  · rw [checkCupcake_of_ne a s ha]
    exact ⟨hlen, hcnt⟩

theorem inv_navigateLabyrinth (N i a : Nat) (s : State) (hi : i < N) (h : Inv N s) :
    Inv N (navigateLabyrinth i a s) := by
  obtain ⟨hlen, hcnt⟩ := h
  by_cases hg : a = i ∧ s.isCupcakeAvailable = true ∧ s.picked i = false
  · obtain ⟨ha, hc, hp⟩ := hg
    rw [navigateLabyrinth_claim i a s ha hc hp]
    have := count_set_true s.guestsPicked i (by omega) hp
    simp [Inv, State.numPicked, hc] at *
    omega
  · rw [navigateLabyrinth_idle i a s]
    · exact ⟨hlen, hcnt⟩
    · by_cases ha : a = i
      · by_cases hc : s.isCupcakeAvailable = true
        · right; right
          cases hp : s.picked i
          · exact absurd ⟨ha, hc, hp⟩ hg
          · rfl
        · right; left; simpa using hc
      · left; exact ha

theorem inv_step (N : Nat) (v : Visit) (s : State) (hN : 0 < N) (hv : v.valid N = true)
    (h : Inv N s) : Inv N (step v s) := by
  cases v with
  | leader a => exact inv_checkCupcake N a s hN h
  | follower i a =>
    simp [Visit.valid] at hv
    exact inv_navigateLabyrinth N i a s hv.2 h

theorem inv_run (N : Nat) (hN : 0 < N) (vs : List Visit) (s : State)
    (hvs : ∀ v ∈ vs, v.valid N = true) (h : Inv N s) : Inv N (run s vs) := by
  induction vs generalizing s with
  | nil => exact h
  | cons v vs ih =>
    exact ih (step v s) (fun w hw => hvs w (List.mem_cons_of_mem _ hw))
      (inv_step N v s hN (hvs v (List.mem_cons_self _ _)) h)

theorem inv_select (N a : Nat) (s : State) (hN : 0 < N) (h : Inv N s) :
    Inv N (select N a s) := by
  unfold select
  split
  · exact inv_checkCupcake N a s hN h
  · split
    · rename_i hlt
      exact inv_navigateLabyrinth N a a s hlt h
    · exact h

theorem inv_drive (N : Nat) (hN : 0 < N) (as : List Nat) (s : State) (h : Inv N s) :
    Inv N (drive N s as) := by
  induction as generalizing s with
  | nil => exact h
  | cons a as ih => exact ih (select N a s) (inv_select N a s hN h)

/-- Under the invariant the counter is at most `N`, and once it reaches `N`
every flag is set and the cupcake is on the plate. -/
theorem inv_bound (N : Nat) (s : State) (h : Inv N s) :
    s.currentCount ≤ N ∧
    (N ≤ s.currentCount →
      s.currentCount = N ∧ (∀ i, i < N → s.picked i = true) ∧ s.isCupcakeAvailable = true) := by
  obtain ⟨hlen, hcnt⟩ := h
  have hle : s.guestsPicked.count true ≤ s.guestsPicked.length := List.count_le_length _ _
  simp only [State.numPicked] at hcnt
  refine ⟨by omega, fun hge => ?_⟩
  have hc : s.isCupcakeAvailable = true := by
    cases hc : s.isCupcakeAvailable
    · simp [hc] at hcnt; omega
    · rfl
  simp [hc] at hcnt
  refine ⟨by omega, fun i hi => ?_, hc⟩
  exact getD_true_of_count_eq s.guestsPicked (by omega) i (by omega)

end Birthday

/-! ## The Counting Protocol: monotonicity -/

namespace Birthday

theorem count_le_checkCupcake (a : Nat) (s : State) :
    s.currentCount ≤ (checkCupcake a s).currentCount := by
  by_cases ha : a = 0
  · subst ha
    cases hc : s.isCupcakeAvailable <;> cases hp : s.picked 0
    · rw [checkCupcake_both s hc hp]; simp
    · rw [checkCupcake_replace s hc hp]; simp
    · rw [checkCupcake_self s hc hp]; simp
    · rw [checkCupcake_idle s hc hp]
  · rw [checkCupcake_of_ne a s ha]

theorem count_le_add_two_checkCupcake (a : Nat) (s : State) :
    (checkCupcake a s).currentCount ≤ s.currentCount + 2 := by
  by_cases ha : a = 0
  · subst ha
    cases hc : s.isCupcakeAvailable <;> cases hp : s.picked 0
    · rw [checkCupcake_both s hc hp]
    · rw [checkCupcake_replace s hc hp]; simp
    · rw [checkCupcake_self s hc hp]; simp
    · rw [checkCupcake_idle s hc hp]; simp
  · rw [checkCupcake_of_ne a s ha]; simp

theorem picked_mono_checkCupcake (a i : Nat) (s : State) (h : s.picked i = true) :
    (checkCupcake a s).picked i = true := by
  by_cases ha : a = 0
  · subst ha
    cases hc : s.isCupcakeAvailable <;> cases hp : s.picked 0
    · rw [checkCupcake_both s hc hp]
      exact getD_set_true_mono s.guestsPicked 0 i h
    · rw [checkCupcake_replace s hc hp]; exact h
    · rw [checkCupcake_self s hc hp]
      exact getD_set_true_mono s.guestsPicked 0 i h
    · rw [checkCupcake_idle s hc hp]; exact h
  · rw [checkCupcake_of_ne a s ha]; exact h

theorem count_navigateLabyrinth (i a : Nat) (s : State) :
    (navigateLabyrinth i a s).currentCount = s.currentCount := by
  unfold navigateLabyrinth
  split <;> rfl

theorem picked_mono_navigateLabyrinth (i a j : Nat) (s : State) (h : s.picked j = true) :
    (navigateLabyrinth i a s).picked j = true := by
  unfold navigateLabyrinth
  split
  · exact getD_set_true_mono s.guestsPicked i j h
  · exact h

theorem navigateLabyrinth_of_picked (i a : Nat) (s : State) (h : s.picked i = true) :
    navigateLabyrinth i a s = s :=
  navigateLabyrinth_idle i a s (Or.inr (Or.inr h))

theorem count_le_step (v : Visit) (s : State) : s.currentCount ≤ (step v s).currentCount := by
  cases v with
  | leader a => exact count_le_checkCupcake a s
  | follower i a => exact le_of_eq (count_navigateLabyrinth i a s).symm

theorem picked_mono_step (v : Visit) (i : Nat) (s : State) (h : s.picked i = true) :
    (step v s).picked i = true := by
  cases v with
  | leader a => exact picked_mono_checkCupcake a i s h
  | follower j a => exact picked_mono_navigateLabyrinth j a i s h

theorem risingEdges_of_picked (i : Nat) (vs : List Visit) (s : State)
    (h : s.picked i = true) : risingEdges i s vs = 0 := by
  induction vs generalizing s with
  | nil => rfl
  | cons v vs ih =>
    simp [risingEdges, h, ih (step v s) (picked_mono_step v i s h)]

theorem risingEdges_le_one (i : Nat) (vs : List Visit) (s : State) :
    risingEdges i s vs ≤ 1 := by
  induction vs generalizing s with
  | nil => simp [risingEdges]
  | cons v vs ih =>
    simp only [risingEdges]
    split
    · rename_i hedge
      rw [risingEdges_of_picked i vs (step v s) hedge.2]
    · have := ih (step v s)
      omega

end Birthday

/-! ## The Counting Protocol: progress of the driver -/

namespace Birthday

theorem select_idle_or_progress (N a : Nat) (s : State) (hN : 0 < N) (h : Inv N s) :
    select N a s = s ∨ progress s < progress (select N a s) := by
  obtain ⟨hlen, -⟩ := h
  have h0 : 0 < s.guestsPicked.length := by omega
  by_cases ha : a = 0
  · subst ha
    simp only [select, if_true]
    cases hc : s.isCupcakeAvailable <;> cases hp : s.picked 0
    · right
      rw [checkCupcake_both s hc hp]
      have h1 := count_set_true s.guestsPicked 0 h0 hp
      have h2 := getD_set_true_self s.guestsPicked 0 h0
      simp only [progress, State.numPicked, State.picked] at hp ⊢
      simp only [h2, hp]
      simp
      omega
    · right
      rw [checkCupcake_replace s hc hp]
      simp only [progress, State.numPicked, State.picked] at hp ⊢
      omega
    · right
      rw [checkCupcake_self s hc hp]
      have h1 := count_set_true s.guestsPicked 0 h0 hp
      have h2 := getD_set_true_self s.guestsPicked 0 h0
      simp only [progress, State.numPicked, State.picked] at hp ⊢
      simp only [h2, hp]
      simp
      omega
    · left
      exact checkCupcake_idle s hc hp
  · simp only [select, if_neg ha]
    by_cases hlt : a < N
    · simp only [if_pos hlt]
      by_cases hg : s.isCupcakeAvailable = true ∧ s.picked a = false
      · right
        rw [navigateLabyrinth_claim a a s rfl hg.1 hg.2]
        have h1 := count_set_true s.guestsPicked a (by omega) hg.2
        have h2 := getD_set_of_ne s.guestsPicked true a 0 (Ne.symm ha)
        simp only [progress, State.numPicked, State.picked]
        simp only [h2]
        omega
      · left
        apply navigateLabyrinth_idle
        right
        by_cases hc : s.isCupcakeAvailable = true
        · right
          cases hp : s.picked a
          · exact absurd ⟨hc, hp⟩ hg
          · rfl
        · left; simpa using hc
    · left
      simp [if_neg hlt]

theorem select_ne_of_due (N j : Nat) (s : State) (hd : due N s j) : select N j s ≠ s := by
  obtain ⟨hj, hd | hd⟩ := hd
  · obtain ⟨rfl, hd⟩ := hd
    simp only [select, if_true]
    intro heq
    have hcnt : (checkCupcake 0 s).currentCount = s.currentCount := by rw [heq]
    cases hc : s.isCupcakeAvailable <;> cases hp : s.picked 0
    · rw [checkCupcake_both s hc hp] at hcnt; simp at hcnt
    · rw [checkCupcake_replace s hc hp] at hcnt; simp at hcnt
    · rw [checkCupcake_self s hc hp] at hcnt; simp at hcnt
    · rcases hd with hd | hd
      · rw [hc] at hd; cases hd
      · rw [hp] at hd; cases hd
  · obtain ⟨hpos, hc, hp⟩ := hd
    have hne : j ≠ 0 := by omega
    simp only [select, if_neg hne, if_pos hj]
    intro heq
    have hav : (navigateLabyrinth j j s).isCupcakeAvailable = s.isCupcakeAvailable := by rw [heq]
    rw [navigateLabyrinth_claim j j s rfl hc hp, hc] at hav
    cases hav

theorem progress_le_select (N a : Nat) (s : State) (hN : 0 < N) (h : Inv N s) :
    progress s ≤ progress (select N a s) := by
  rcases select_idle_or_progress N a s hN h with he | hl
  · rw [he]
  · exact le_of_lt hl

theorem progress_le_drive (N : Nat) (hN : 0 < N) (as : List Nat) (s : State) (h : Inv N s) :
    progress s ≤ progress (drive N s as) := by
  induction as generalizing s with
  | nil => exact le_refl _
  | cons a as ih =>
    exact le_trans (progress_le_select N a s hN h) (ih (select N a s) (inv_select N a s hN h))

/-- A round that selects a thread that is due makes progress. -/
theorem progress_lt_drive (N : Nat) (hN : 0 < N) (j : Nat) (as : List Nat) (s : State)
    (h : Inv N s) (hd : due N s j) (hj : j ∈ as) :
    progress s < progress (drive N s as) := by
  induction as with
  | nil => simp at hj
  | cons a as ih =>
    have hrest := progress_le_drive N hN as (select N a s) (inv_select N a s hN h)
    rcases select_idle_or_progress N a s hN h with he | hl
    · rcases List.mem_cons.1 hj with rfl | hmem
      · exact absurd he (select_ne_of_due N j s hd)
      · have := ih hmem
        simpa [drive, he] using this
    · exact lt_of_lt_of_le hl hrest

theorem exists_due (N : Nat) (s : State) (hN : 0 < N) (h : Inv N s)
    (hlt : s.currentCount < N) : ∃ j, due N s j := by
  obtain ⟨hlen, hcnt⟩ := h
  cases hc : s.isCupcakeAvailable
  · exact ⟨0, hN, Or.inl ⟨rfl, Or.inl hc⟩⟩
  · simp [State.numPicked, hc] at hcnt
    obtain ⟨i, hi, hf⟩ := exists_false_of_count_lt s.guestsPicked (by omega)
    rcases Nat.eq_zero_or_pos i with rfl | hpos
    · exact ⟨0, hN, Or.inl ⟨rfl, Or.inr hf⟩⟩
    · exact ⟨i, by omega, Or.inr ⟨hpos, hc, hf⟩⟩

theorem progress_lt_of_count_lt (N : Nat) (s : State) (hN : 0 < N) (h : Inv N s)
    (hlt : s.currentCount < N) : progress s < 2 * N := by
  obtain ⟨hlen, hcnt⟩ := h
  have hle : s.guestsPicked.count true ≤ s.guestsPicked.length := List.count_le_length _ _
  simp only [State.numPicked] at hcnt
  have hcp : s.currentCount ≤ s.guestsPicked.count true := by omega
  cases hp : s.picked 0
  · have h1 := count_set_true s.guestsPicked 0 (by omega) hp
    have h2 : (s.guestsPicked.set 0 true).count true ≤ (s.guestsPicked.set 0 true).length :=
      List.count_le_length _ _
    rw [List.length_set] at h2
    simp [progress, State.numPicked, hp]
    omega
  · simp [progress, State.numPicked, hp]
    omega

theorem drive_append (N : Nat) (s : State) (as bs : List Nat) :
    drive N s (as ++ bs) = drive N (drive N s as) bs := by
  simp [drive, List.foldl_append]

theorem count_le_drive (N : Nat) (as : List Nat) (s : State) :
    s.currentCount ≤ (drive N s as).currentCount := by
  induction as generalizing s with
  | nil => exact le_refl _
  | cons a as ih =>
    refine le_trans ?_ (ih (select N a s))
    unfold select
    split
    · exact count_le_checkCupcake a s
    · split
      · exact le_of_eq (count_navigateLabyrinth a a s).symm
      · exact le_refl _

/-- After `k` rounds that each select every thread, the count is `N` or the
progress measure has grown by `k`. -/
theorem rounds_progress (N : Nat) (hN : 0 < N) (rounds : List (List Nat)) (s : State)
    (h : Inv N s) (hr : ∀ r ∈ rounds, ∀ i, i < N → i ∈ r) :
    (drive N s rounds.flatten).currentCount = N ∨
      progress s + rounds.length ≤ progress (drive N s rounds.flatten) := by
  induction rounds generalizing s with
  | nil => right; simp [drive]
  | cons r rounds ih =>
    have hinv1 := inv_drive N hN r s h
    have hih := ih (drive N s r) hinv1 (fun q hq => hr q (List.mem_cons_of_mem _ hq))
    rw [List.flatten_cons, drive_append]
    by_cases hlt : s.currentCount < N
    · obtain ⟨j, hd⟩ := exists_due N s hN h hlt
      have hp := progress_lt_drive N hN j r s h hd (hr r (List.mem_cons_self _ _) j hd.1)
      rcases hih with hdone | hprog
      · exact Or.inl hdone
      · right
        simp only [List.length_cons]
        omega
    · left
      have hfin := inv_drive N hN rounds.flatten (drive N s r) hinv1
      have h1 := count_le_drive N r s
      have h2 := count_le_drive N rounds.flatten (drive N s r)
      have h3 := (inv_bound N _ hfin).1
      omega

end Birthday

/-! ## The Counting Protocol: results -/

namespace Birthday

/-- C1: for `N ≥ 1`, in every state reached from the initial state by critical
sections of the leader and of followers `1 ≤ i < N`, each with an arbitrary
observed `activeThreadIndex`, `currentCount ≤ N`; and when the exit condition
`currentCount ≥ N` holds, `currentCount = N`, every `guestsPicked[i]` with
`i < N` is true and `isCupcakeAvailable` is true. -/
theorem counting_bound_and_exit (N : Nat) (hN : 1 ≤ N) (vs : List Visit)
    (hvs : ∀ v ∈ vs, v.valid N = true) :
    (run (init N) vs).currentCount ≤ N ∧
    (N ≤ (run (init N) vs).currentCount →
      (run (init N) vs).currentCount = N ∧
      (∀ i, i < N → (run (init N) vs).picked i = true) ∧
      (run (init N) vs).isCupcakeAvailable = true) :=
  inv_bound N _ (inv_run N hN vs (init N) hvs (inv_init N))

/-- Instance of C1 with two guests: the follower claims, the leader counts
both, and the exit condition is reached. -/
theorem counting_bound_and_exit_witness :
    (1 ≤ 2 ∧ ∀ v ∈ [Visit.follower 1 1, Visit.leader 0], v.valid 2 = true) ∧
    (run (init 2) [Visit.follower 1 1, Visit.leader 0]).currentCount ≤ 2 ∧
    (2 ≤ (run (init 2) [Visit.follower 1 1, Visit.leader 0]).currentCount →
      (run (init 2) [Visit.follower 1 1, Visit.leader 0]).currentCount = 2 ∧
      (∀ i, i < 2 → (run (init 2) [Visit.follower 1 1, Visit.leader 0]).picked i = true) ∧
      (run (init 2) [Visit.follower 1 1, Visit.leader 0]).isCupcakeAvailable = true) :=
  ⟨⟨by decide, by decide⟩,
    counting_bound_and_exit 2 (by decide) [Visit.follower 1 1, Visit.leader 0] (by decide)⟩

/-- C2, as stated, fails: with three guests the driver sequence `1, 2, 0`
selects every index once, and ends with `currentCount = 2` and
`guestsPicked[2]` false (follower 2 was selected while the cupcake was gone). -/
theorem covering_driver_not_enough :
    (∀ i, i < 3 → i ∈ [1, 2, 0]) ∧
    (drive 3 (init 3) [1, 2, 0]).currentCount = 2 ∧
    (drive 3 (init 3) [1, 2, 0]).picked 2 = false := by
  decide

/-- C2, amended: for `N ≥ 1`, a driver sequence made of at least `2 * N - 1`
consecutive rounds, each of which selects every index below `N` at least once,
ends with `currentCount = N` and every `guestsPicked[i]`, `i < N`, true. -/
theorem counting_terminates_after_rounds (N : Nat) (hN : 1 ≤ N) (rounds : List (List Nat))
    (hr : ∀ r ∈ rounds, ∀ i, i < N → i ∈ r) (hk : 2 * N - 1 ≤ rounds.length) :
    (drive N (init N) rounds.flatten).currentCount = N ∧
    ∀ i, i < N → (drive N (init N) rounds.flatten).picked i = true := by
  have hfin := inv_drive N hN rounds.flatten (init N) (inv_init N)
  have hb := inv_bound N _ hfin
  have hge : N ≤ (drive N (init N) rounds.flatten).currentCount := by
    rcases rounds_progress N hN rounds (init N) (inv_init N) hr with hdone | hprog
    · omega
    · by_contra hlt
      have hp := progress_lt_of_count_lt N _ hN hfin (by omega)
      have h0 : progress (init N) = 1 := by
        obtain ⟨n, rfl⟩ : ∃ n, N = n + 1 := ⟨N - 1, by omega⟩
        simp [progress, init, State.numPicked, State.picked, List.count_replicate,
          List.replicate_succ]
      omega
  exact ⟨(hb.2 hge).1, (hb.2 hge).2.1⟩

/-- Instance of the amended C2: two guests, three rounds `0, 1`. -/
theorem counting_terminates_after_rounds_witness :
    (1 ≤ 2 ∧ (∀ r ∈ [[0, 1], [0, 1], [0, 1]], ∀ i, i < 2 → i ∈ r) ∧
      2 * 2 - 1 ≤ [[0, 1], [0, 1], [0, 1]].length) ∧
    (drive 2 (init 2) [[0, 1], [0, 1], [0, 1]].flatten).currentCount = 2 ∧
    ∀ i, i < 2 → (drive 2 (init 2) [[0, 1], [0, 1], [0, 1]].flatten).picked i = true :=
  ⟨⟨by decide, by decide, by decide⟩,
    counting_terminates_after_rounds 2 (by decide) [[0, 1], [0, 1], [0, 1]] (by decide)
      (by decide)⟩

/-- C3: one critical section of any thread, with any observed
`activeThreadIndex`, from any state, never decreases `currentCount` and never
clears a flag of `guestsPicked`; along any run each flag goes from false to
true at most once; a follower whose flag is set leaves the state unchanged. -/
theorem single_claim (s : State) (v : Visit) (vs : List Visit) (i a : Nat) :
    s.currentCount ≤ (step v s).currentCount ∧
    (s.picked i = true → (step v s).picked i = true) ∧
    risingEdges i s vs ≤ 1 ∧
    (s.picked i = true → navigateLabyrinth i a s = s) :=
  ⟨count_le_step v s, picked_mono_step v i s, risingEdges_le_one i vs s,
    navigateLabyrinth_of_picked i a s⟩

/-- C4, as stated, fails: after follower 1 has claimed the cupcake (two
guests), the cupcake is gone and `guestsPicked[0]` is false; one leader
critical section then applies both rules: `currentCount` grows by two and
`guestsPicked[0]` becomes true. -/
theorem leader_applies_both_rules :
    (navigateLabyrinth 1 1 (init 2)).isCupcakeAvailable = false ∧
    (navigateLabyrinth 1 1 (init 2)).picked 0 = false ∧
    (checkCupcake 0 (navigateLabyrinth 1 1 (init 2))).currentCount
      = (navigateLabyrinth 1 1 (init 2)).currentCount + 2 ∧
    (checkCupcake 0 (navigateLabyrinth 1 1 (init 2))).picked 0 = true := by
  decide

/-- C4, amended: with `activeThreadIndex ≠ 0` the leader changes nothing.  With
`activeThreadIndex = 0` it applies its two rules one after the other, so
`currentCount` grows by at most two and the cupcake is available afterwards:
cupcake gone and `guestsPicked[0]` set, only the first rule applies (count
plus one, flag unchanged); cupcake gone and `guestsPicked[0]` clear, both
apply (count plus two, flag set); cupcake there and flag clear, only the
second applies (count plus one, flag set); cupcake there and flag set,
nothing changes. -/
theorem leader_rule (s : State) (a : Nat) :
    (a ≠ 0 → checkCupcake a s = s) ∧
    (checkCupcake a s).currentCount ≤ s.currentCount + 2 ∧
    (checkCupcake 0 s).isCupcakeAvailable = true ∧
    (s.isCupcakeAvailable = false → s.picked 0 = true →
      checkCupcake 0 s
        = { s with currentCount := s.currentCount + 1, isCupcakeAvailable := true }) ∧
    (s.isCupcakeAvailable = false → s.picked 0 = false →
      checkCupcake 0 s
        = { s with currentCount := s.currentCount + 2, isCupcakeAvailable := true,
                   guestsPicked := s.guestsPicked.set 0 true }) ∧
    (s.isCupcakeAvailable = true → s.picked 0 = false →
      checkCupcake 0 s
        = { s with currentCount := s.currentCount + 1,
                   guestsPicked := s.guestsPicked.set 0 true }) ∧
    (s.isCupcakeAvailable = true → s.picked 0 = true → checkCupcake 0 s = s) ∧
    (0 < s.guestsPicked.length → (checkCupcake 0 s).picked 0 = true) := by
  refine ⟨checkCupcake_of_ne a s, count_le_add_two_checkCupcake a s, ?_,
    checkCupcake_replace s, checkCupcake_both s, ?_, checkCupcake_idle s, ?_⟩
  · cases hc : s.isCupcakeAvailable <;> cases hp : s.picked 0
    · rw [checkCupcake_both s hc hp]
    · rw [checkCupcake_replace s hc hp]
    · rw [checkCupcake_self s hc hp]
    · rw [checkCupcake_idle s hc hp]; exact hc
  · intro hc hp
    rw [checkCupcake_self s hc hp]
    cases s
    simp_all
  · intro h0
    cases hc : s.isCupcakeAvailable <;> cases hp : s.picked 0
    · rw [checkCupcake_both s hc hp]
      exact getD_set_true_self s.guestsPicked 0 h0
    · rw [checkCupcake_replace s hc hp]; exact hp
    · rw [checkCupcake_self s hc hp]
      exact getD_set_true_self s.guestsPicked 0 h0
    · rw [checkCupcake_idle s hc hp]; exact hp

/-- C5: for `N ≥ 1`, in every reachable state `currentCount` is at most the
number of flags set in `guestsPicked`; that number is `currentCount` when the
cupcake is available and `currentCount + 1` when it is not. -/
theorem count_matches_flags (N : Nat) (hN : 1 ≤ N) (vs : List Visit)
    (hvs : ∀ v ∈ vs, v.valid N = true) :
    (run (init N) vs).currentCount ≤ (run (init N) vs).numPicked ∧
    ((run (init N) vs).isCupcakeAvailable = true →
      (run (init N) vs).numPicked = (run (init N) vs).currentCount) ∧
    ((run (init N) vs).isCupcakeAvailable = false →
      (run (init N) vs).numPicked = (run (init N) vs).currentCount + 1) := by
  obtain ⟨-, hcnt⟩ := inv_run N hN vs (init N) hvs (inv_init N)
  refine ⟨by omega, fun hc => ?_, fun hc => ?_⟩
  · simpa [hc] using hcnt
  · simpa [hc] using hcnt

/-- Instance of C5: three guests, the leader counts itself, follower 2 claims
(observing 2), follower 1 looks in while index 2 is active. -/
theorem count_matches_flags_witness :
    (1 ≤ 3 ∧
      ∀ v ∈ [Visit.leader 0, Visit.follower 2 2, Visit.follower 1 2], v.valid 3 = true) ∧
    (run (init 3) [Visit.leader 0, Visit.follower 2 2, Visit.follower 1 2]).currentCount
      ≤ (run (init 3) [Visit.leader 0, Visit.follower 2 2, Visit.follower 1 2]).numPicked ∧
    ((run (init 3) [Visit.leader 0, Visit.follower 2 2, Visit.follower 1 2]).isCupcakeAvailable
        = true →
      (run (init 3) [Visit.leader 0, Visit.follower 2 2, Visit.follower 1 2]).numPicked
        = (run (init 3) [Visit.leader 0, Visit.follower 2 2, Visit.follower 1 2]).currentCount) ∧
    ((run (init 3) [Visit.leader 0, Visit.follower 2 2, Visit.follower 1 2]).isCupcakeAvailable
        = false →
      (run (init 3) [Visit.leader 0, Visit.follower 2 2, Visit.follower 1 2]).numPicked
        = (run (init 3) [Visit.leader 0, Visit.follower 2 2, Visit.follower 1 2]).currentCount
          + 1) :=
  ⟨⟨by decide, by decide⟩,
    count_matches_flags 3 (by decide)
      [Visit.leader 0, Visit.follower 2 2, Visit.follower 1 2] (by decide)⟩

/-- C6: a critical section of follower `i`, `1 ≤ i < N`, with any observed
`activeThreadIndex`, on any state whose array has `N` entries, leaves
`currentCount` and every `guestsPicked[j]`, `j ≠ i`, unchanged and never turns
`isCupcakeAvailable` from false to true; it changes the state only when
`activeThreadIndex = i`, the cupcake is available and `guestsPicked[i]` is
false, and then it sets exactly `isCupcakeAvailable = false` and
`guestsPicked[i] = true`. -/
theorem follower_frame (N : Nat) (s : State) (i a : Nat) (_hi : 1 ≤ i) (hiN : i < N)
    (hlen : s.guestsPicked.length = N) :
    (navigateLabyrinth i a s).currentCount = s.currentCount ∧
    (∀ j, j ≠ i → (navigateLabyrinth i a s).picked j = s.picked j) ∧
    (s.isCupcakeAvailable = false → (navigateLabyrinth i a s).isCupcakeAvailable = false) ∧
    (navigateLabyrinth i a s ≠ s →
      a = i ∧ s.isCupcakeAvailable = true ∧ s.picked i = false) ∧
    (a = i → s.isCupcakeAvailable = true → s.picked i = false →
      navigateLabyrinth i a s
        = { s with isCupcakeAvailable := false, guestsPicked := s.guestsPicked.set i true } ∧
      (navigateLabyrinth i a s).isCupcakeAvailable = false ∧
      (navigateLabyrinth i a s).picked i = true ∧
      navigateLabyrinth i a s ≠ s) := by
  refine ⟨count_navigateLabyrinth i a s, fun j hj => ?_, fun hc => ?_, fun hne => ?_,
    fun ha hc hp => ?_⟩
  · unfold navigateLabyrinth
    split
    · exact getD_set_of_ne s.guestsPicked true i j hj
    · rfl
  · rw [navigateLabyrinth_idle i a s (Or.inr (Or.inl hc))]
    exact hc
  · by_contra hg
    apply hne
    apply navigateLabyrinth_idle
    by_cases h1 : a = i
    · by_cases h2 : s.isCupcakeAvailable = true
      · right; right
        cases hp : s.picked i
        · exact absurd ⟨h1, h2, hp⟩ hg
        · rfl
      · right; left; simpa using h2
    · left; exact h1
  · have heq := navigateLabyrinth_claim i a s ha hc hp
    refine ⟨heq, by rw [heq], ?_, ?_⟩
    · rw [heq]
      exact getD_set_true_self s.guestsPicked i (by omega)
    · intro hs
      have : (navigateLabyrinth i a s).isCupcakeAvailable = s.isCupcakeAvailable := by rw [hs]
      rw [heq, hc] at this
      cases this

/-- Instance of C6: three guests, follower 1 observes its own index in the
initial state. -/
theorem follower_frame_witness :
    (1 ≤ 1 ∧ 1 < 3 ∧ (init 3).guestsPicked.length = 3) ∧
    (navigateLabyrinth 1 1 (init 3)).currentCount = (init 3).currentCount ∧
    (∀ j, j ≠ 1 → (navigateLabyrinth 1 1 (init 3)).picked j = (init 3).picked j) ∧
    ((init 3).isCupcakeAvailable = false →
      (navigateLabyrinth 1 1 (init 3)).isCupcakeAvailable = false) ∧
    (navigateLabyrinth 1 1 (init 3) ≠ init 3 →
      1 = 1 ∧ (init 3).isCupcakeAvailable = true ∧ (init 3).picked 1 = false) ∧
    (1 = 1 → (init 3).isCupcakeAvailable = true → (init 3).picked 1 = false →
      navigateLabyrinth 1 1 (init 3)
        = { init 3 with isCupcakeAvailable := false,
                        guestsPicked := (init 3).guestsPicked.set 1 true } ∧
      (navigateLabyrinth 1 1 (init 3)).isCupcakeAvailable = false ∧
      (navigateLabyrinth 1 1 (init 3)).picked 1 = true ∧
      navigateLabyrinth 1 1 (init 3) ≠ init 3) :=
  ⟨⟨by decide, by decide, by decide⟩,
    follower_frame 3 (init 3) 1 1 (by decide) (by decide) (by decide)⟩

end Birthday

/-! ## The Mutual-Exclusion Protocol: the invariant -/

namespace CrystalVase

theorem vase_inv_init : Inv init := by
  constructor <;> simp [init, Loc.locked, Loc.visiting]

theorem goto_pc_self (s : State) (u : Nat) (l : Loc) : (s.goto u l).pc u = l := by
  simp [State.goto]

theorem goto_pc_of_ne (s : State) (u t : Nat) (l : Loc) (h : t ≠ u) :
    (s.goto u l).pc t = s.pc t := by
  simp [State.goto, h]

theorem goto_mutex (s : State) (u : Nat) (l : Loc) : (s.goto u l).mutex = s.mutex := rfl

theorem goto_roomStatus (s : State) (u : Nat) (l : Loc) :
    (s.goto u l).roomStatus = s.roomStatus := rfl

theorem goto_guestsVisited (s : State) (u : Nat) (l : Loc) :
    (s.goto u l).guestsVisited = s.guestsVisited := rfl

theorem status_eq_available (r : Status) (h : ¬ r = Status.BUSY) : r = Status.AVAILABLE := by
  cases r
  · rfl
  · exact absurd rfl h

/-- A move of thread `u` that touches no shared variable keeps the invariant
when the new program point is on the same side of the lock and of the room. -/
theorem inv_goto (s : State) (u : Nat) (l : Loc) (h : Inv s)
    (hl : l.locked = (s.pc u).locked) (hr : l.inRoom = (s.pc u).inRoom)
    (hu : l = Loc.unlock → u ∈ s.guestsVisited)
    (hv : l.visiting = true → u ∉ s.guestsVisited) : Inv (s.goto u l) := by
  obtain ⟨h1, h2, h3, h4, h5, h6⟩ := h
  refine ⟨fun t => ?_, h2, fun t ht => ?_, h4, fun t ht => ?_, fun t ht => ?_⟩
  · by_cases htu : t = u
    · subst htu
      rw [goto_pc_self, goto_mutex, hl]
      exact h1 t
    · rw [goto_pc_of_ne s u t l htu, goto_mutex]
      exact h1 t
  · rw [goto_mutex] at ht
    rw [goto_roomStatus]
    by_cases htu : t = u
    · subst htu
      rw [goto_pc_self, hr]
      exact h3 t ht
    · rw [goto_pc_of_ne s u t l htu]
      exact h3 t ht
  · rw [goto_guestsVisited]
    by_cases htu : t = u
    · subst htu
      rw [goto_pc_self] at ht
      exact hu ht
    · rw [goto_pc_of_ne s u t l htu] at ht
      exact h5 t ht
  · rw [goto_guestsVisited]
    by_cases htu : t = u
    · subst htu
      rw [goto_pc_self] at ht
      exact hv ht
    · rw [goto_pc_of_ne s u t l htu] at ht
      exact h6 t ht

theorem inv_acquire (s : State) (u : Nat) (h : Inv s) (hpc : s.pc u = Loc.lock)
    (hm : s.mutex = none) : Inv (State.goto { s with mutex := some u } u Loc.test) := by
  obtain ⟨h1, h2, h3, h4, h5, h6⟩ := h
  refine ⟨fun t => ?_, fun ht => ?_, fun t ht => ?_, h4, fun t ht => ?_, fun t ht => ?_⟩
  · by_cases htu : t = u
    · subst htu
      simp [State.goto, Loc.locked]
    · have hnl : ¬ (s.pc t).locked = true := fun hl => by
        have := (h1 t).1 hl
        rw [hm] at this
        cases this
      have hne : ¬ u = t := fun e => htu e.symm
      simp [State.goto, htu, hnl, hne]
  · simp [State.goto] at ht
  · have htu : u = t := by simpa [State.goto] using ht
    subst htu
    have := h2 hm
    simp [State.goto, Loc.inRoom, this]
  · by_cases htu : t = u
    · subst htu
      simp [State.goto] at ht
    · exact h5 t (by simpa [State.goto, htu] using ht)
  · by_cases htu : t = u
    · subst htu
      simp [State.goto, Loc.visiting] at ht
    · exact h6 t (by simpa [State.goto, htu] using ht)

theorem inv_setBusy (s : State) (u : Nat) (h : Inv s) (hpc : s.pc u = Loc.setBusy) :
    Inv (State.goto { s with roomStatus := Status.BUSY } u Loc.hold) := by
  obtain ⟨h1, h2, h3, h4, h5, h6⟩ := h
  have hmu : s.mutex = some u := (h1 u).1 (by rw [hpc]; rfl)
  refine ⟨fun t => ?_, fun ht => ?_, fun t ht => ?_, h4, fun t ht => ?_, fun t ht => ?_⟩
  · by_cases htu : t = u
    · subst htu
      simp [State.goto, Loc.locked, hmu]
    · simpa [State.goto, htu] using h1 t
  · rw [goto_mutex] at ht
    simp [hmu] at ht
  · have htu : u = t := by simpa [State.goto, hmu] using ht
    subst htu
    simp [State.goto, Loc.inRoom]
  · by_cases htu : t = u
    · subst htu
      simp [State.goto] at ht
    · exact h5 t (by simpa [State.goto, htu] using ht)
  · by_cases htu : t = u
    · subst htu
      exact h6 t (by rw [hpc]; rfl)
    · exact h6 t (by simpa [State.goto, htu] using ht)

theorem inv_setAvailable (s : State) (u : Nat) (h : Inv s) (hpc : s.pc u = Loc.setAvailable) :
    Inv (State.goto { s with roomStatus := Status.AVAILABLE } u Loc.insert) := by
  obtain ⟨h1, h2, h3, h4, h5, h6⟩ := h
  have hmu : s.mutex = some u := (h1 u).1 (by rw [hpc]; rfl)
  refine ⟨fun t => ?_, fun _ => rfl, fun t ht => ?_, h4, fun t ht => ?_, fun t ht => ?_⟩
  · by_cases htu : t = u
    · subst htu
      simp [State.goto, Loc.locked, hmu]
    · simpa [State.goto, htu] using h1 t
  · have htu : u = t := by simpa [State.goto, hmu] using ht
    subst htu
    simp [State.goto, Loc.inRoom]
  · by_cases htu : t = u
    · subst htu
      simp [State.goto] at ht
    · exact h5 t (by simpa [State.goto, htu] using ht)
  · by_cases htu : t = u
    · subst htu
      exact h6 t (by rw [hpc]; rfl)
    · exact h6 t (by simpa [State.goto, htu] using ht)

theorem inv_insert (s : State) (u : Nat) (h : Inv s) (hpc : s.pc u = Loc.insert) :
    Inv (State.goto { s with guestsVisited := s.guestsVisited.insert u } u Loc.unlock) := by
  obtain ⟨h1, h2, h3, h4, h5, h6⟩ := h
  have hmu : s.mutex = some u := (h1 u).1 (by rw [hpc]; rfl)
  have hroom := h3 u hmu
  rw [hpc] at hroom
  refine ⟨fun t => ?_, fun ht => ?_, fun t ht => ?_, h4.insert, fun t ht => ?_, fun t ht => ?_⟩
  · by_cases htu : t = u
    · subst htu
      simp [State.goto, Loc.locked, hmu]
    · simpa [State.goto, htu] using h1 t
  · rw [goto_mutex] at ht
    simp [hmu] at ht
  · have htu : u = t := by simpa [State.goto, hmu] using ht
    subst htu
    simpa [State.goto, Loc.inRoom] using hroom
  · by_cases htu : t = u
    · subst htu
      simp [State.goto]
    · have := h5 t (by simpa [State.goto, htu] using ht)
      simp [State.goto, this]
  · by_cases htu : t = u
    · subst htu
      simp [State.goto, Loc.visiting] at ht
    · have := h6 t (by simpa [State.goto, htu] using ht)
      simp [State.goto, this, htu]

theorem inv_unlock (s : State) (u : Nat) (h : Inv s) (hpc : s.pc u = Loc.unlock) :
    Inv (State.goto { s with mutex := none } u Loc.loopTest) := by
  obtain ⟨h1, h2, h3, h4, h5, h6⟩ := h
  have hmu : s.mutex = some u := (h1 u).1 (by rw [hpc]; rfl)
  have hroom := h3 u hmu
  rw [hpc] at hroom
  refine ⟨fun t => ?_, fun _ => ?_, fun t ht => ?_, h4, fun t ht => ?_, fun t ht => ?_⟩
  · by_cases htu : t = u
    · subst htu
      simp [State.goto, Loc.locked]
    · have hnl : ¬ (s.pc t).locked = true := fun hl => by
        have := (h1 t).1 hl
        rw [hmu] at this
        exact htu (Option.some.inj this).symm
      simp [State.goto, htu, hnl]
  · rw [goto_roomStatus]
    exact status_eq_available _ (fun hb => by simpa [Loc.inRoom] using hroom.1 hb)
  · simp [State.goto] at ht
  · by_cases htu : t = u
    · subst htu
      simp [State.goto] at ht
    · exact h5 t (by simpa [State.goto, htu] using ht)
  · by_cases htu : t = u
    · subst htu
      simp [State.goto, Loc.visiting] at ht
    · exact h6 t (by simpa [State.goto, htu] using ht)

/-! ### One statement at a time -/

theorem step_loopTest (N u : Nat) (s : State) (hpc : s.pc u = Loc.loopTest) :
    admireVaseStep N u s
      = if s.guestsVisited.length < N then s.goto u Loc.lock else s.goto u Loc.done := by
  simp only [admireVaseStep, hpc]

theorem step_lock_free (N u : Nat) (s : State) (hpc : s.pc u = Loc.lock)
    (hm : s.mutex = none) :
    admireVaseStep N u s = State.goto { s with mutex := some u } u Loc.test := by
  simp only [admireVaseStep, hpc, hm]

theorem step_lock_held (N u v : Nat) (s : State) (hpc : s.pc u = Loc.lock)
    (hm : s.mutex = some v) : admireVaseStep N u s = s := by
  simp only [admireVaseStep, hpc, hm]

theorem step_test (N u : Nat) (s : State) (hpc : s.pc u = Loc.test) :
    admireVaseStep N u s
      = if s.roomStatus = Status.AVAILABLE ∧ u ∉ s.guestsVisited then s.goto u Loc.setBusy
        else s.goto u Loc.unlock := by
  simp only [admireVaseStep, hpc]

theorem step_setBusy (N u : Nat) (s : State) (hpc : s.pc u = Loc.setBusy) :
    admireVaseStep N u s = State.goto { s with roomStatus := Status.BUSY } u Loc.hold := by
  simp only [admireVaseStep, hpc]

theorem step_hold (N u : Nat) (s : State) (hpc : s.pc u = Loc.hold) :
    admireVaseStep N u s = s.goto u Loc.setAvailable := by
  simp only [admireVaseStep, hpc]

theorem step_setAvailable (N u : Nat) (s : State) (hpc : s.pc u = Loc.setAvailable) :
    admireVaseStep N u s
      = State.goto { s with roomStatus := Status.AVAILABLE } u Loc.insert := by
  simp only [admireVaseStep, hpc]

theorem step_insert (N u : Nat) (s : State) (hpc : s.pc u = Loc.insert) :
    admireVaseStep N u s
      = State.goto { s with guestsVisited := s.guestsVisited.insert u } u Loc.unlock := by
  simp only [admireVaseStep, hpc]

theorem step_unlock (N u : Nat) (s : State) (hpc : s.pc u = Loc.unlock) :
    admireVaseStep N u s = State.goto { s with mutex := none } u Loc.loopTest := by
  simp only [admireVaseStep, hpc]

theorem step_done (N u : Nat) (s : State) (hpc : s.pc u = Loc.done) :
    admireVaseStep N u s = s := by
  simp only [admireVaseStep, hpc]

/-- A thread that holds the lock at the test of line 62 sees `AVAILABLE`. -/
theorem available_of_test (s : State) (u : Nat) (h : Inv s) (hpc : s.pc u = Loc.test) :
    s.roomStatus = Status.AVAILABLE := by
  have hmu : s.mutex = some u := (h.locked_iff u).1 (by rw [hpc]; rfl)
  have hroom := h.busy_iff u hmu
  rw [hpc] at hroom
  exact status_eq_available _ (fun hb => by simpa [Loc.inRoom] using hroom.1 hb)

theorem vase_inv_step (N u : Nat) (s : State) (h : Inv s) : Inv (admireVaseStep N u s) := by
  cases hpc : s.pc u
  · rw [step_loopTest N u s hpc]
    split
    · exact inv_goto s u Loc.lock h (by rw [hpc]; rfl) (by rw [hpc]; rfl)
        (fun e => by cases e) (fun e => by cases e)
    · exact inv_goto s u Loc.done h (by rw [hpc]; rfl) (by rw [hpc]; rfl)
        (fun e => by cases e) (fun e => by cases e)
  · cases hm : s.mutex with
    | none =>
      rw [step_lock_free N u s hpc hm]
      exact inv_acquire s u h hpc hm
    | some v =>
      rw [step_lock_held N u v s hpc hm]
      exact h
  · rw [step_test N u s hpc]
    split
    · rename_i hc
      exact inv_goto s u Loc.setBusy h (by rw [hpc]; rfl) (by rw [hpc]; rfl)
        (fun e => by cases e) (fun _ => hc.2)
    · rename_i hc
      refine inv_goto s u Loc.unlock h (by rw [hpc]; rfl) (by rw [hpc]; rfl)
        (fun _ => ?_) (fun e => by cases e)
      by_contra hn
      exact hc ⟨available_of_test s u h hpc, hn⟩
  · rw [step_setBusy N u s hpc]
    exact inv_setBusy s u h hpc
  · rw [step_hold N u s hpc]
    exact inv_goto s u Loc.setAvailable h (by rw [hpc]; rfl) (by rw [hpc]; rfl)
      (fun e => by cases e) (fun _ => h.visiting_not_mem u (by rw [hpc]; rfl))
  · rw [step_setAvailable N u s hpc]
    exact inv_setAvailable s u h hpc
  · rw [step_insert N u s hpc]
    exact inv_insert s u h hpc
  · rw [step_unlock N u s hpc]
    exact inv_unlock s u h hpc
  · rw [step_done N u s hpc]
    exact h

theorem vase_inv_exec (N : Nat) (sched : List Nat) (s : State) (h : Inv s) :
    Inv (exec N s sched) := by
  induction sched generalizing s with
  | nil => exact h
  | cons u sched ih => exact ih (admireVaseStep N u s) (vase_inv_step N u s h)

/-! ### The shared variables along a schedule -/

theorem guestsVisited_step (N u : Nat) (s : State) :
    (admireVaseStep N u s).guestsVisited
      = if s.pc u = Loc.insert then s.guestsVisited.insert u else s.guestsVisited := by
  cases hpc : s.pc u
  · rw [step_loopTest N u s hpc]; split <;> simp [State.goto]
  · cases hm : s.mutex with
    | none => rw [step_lock_free N u s hpc hm]; simp [State.goto]
    | some v => rw [step_lock_held N u v s hpc hm]; simp
  · rw [step_test N u s hpc]; split <;> simp [State.goto]
  · rw [step_setBusy N u s hpc]; simp [State.goto]
  · rw [step_hold N u s hpc]; simp [State.goto]
  · rw [step_setAvailable N u s hpc]; simp [State.goto]
  · rw [step_insert N u s hpc]; simp [State.goto]
  · rw [step_unlock N u s hpc]; simp [State.goto]
  · rw [step_done N u s hpc]; simp

theorem roomStatus_step (N u : Nat) (s : State) :
    (admireVaseStep N u s).roomStatus
      = if s.pc u = Loc.setBusy then Status.BUSY
        else if s.pc u = Loc.setAvailable then Status.AVAILABLE else s.roomStatus := by
  cases hpc : s.pc u
  · rw [step_loopTest N u s hpc]; split <;> simp [State.goto]
  · cases hm : s.mutex with
    | none => rw [step_lock_free N u s hpc hm]; simp [State.goto]
    | some v => rw [step_lock_held N u v s hpc hm]; simp
  · rw [step_test N u s hpc]; split <;> simp [State.goto]
  · rw [step_setBusy N u s hpc]; simp [State.goto]
  · rw [step_hold N u s hpc]; simp [State.goto]
  · rw [step_setAvailable N u s hpc]; simp [State.goto]
  · rw [step_insert N u s hpc]; simp [State.goto]
  · rw [step_unlock N u s hpc]; simp [State.goto]
  · rw [step_done N u s hpc]; simp

theorem length_le_step (N u : Nat) (s : State) :
    s.guestsVisited.length ≤ (admireVaseStep N u s).guestsVisited.length := by
  rw [guestsVisited_step]
  split
  · by_cases hm : u ∈ s.guestsVisited
    · rw [List.insert_of_mem hm]
    · rw [List.insert_of_not_mem hm]; simp
  · exact le_refl _

theorem mem_step (N u t : Nat) (s : State) (h : t ∈ s.guestsVisited) :
    t ∈ (admireVaseStep N u s).guestsVisited := by
  rw [guestsVisited_step]
  split
  · exact List.mem_insert_of_mem h
  · exact h

theorem mem_exec (N t : Nat) (sched : List Nat) (s : State) (h : t ∈ s.guestsVisited) :
    t ∈ (exec N s sched).guestsVisited := by
  induction sched generalizing s with
  | nil => exact h
  | cons u sched ih => exact ih (admireVaseStep N u s) (mem_step N u t s h)

/-- Only threads of the schedule are ever inserted. -/
theorem lt_of_mem_step (N u : Nat) (s : State) (hu : u < N)
    (h : ∀ t ∈ s.guestsVisited, t < N) : ∀ t ∈ (admireVaseStep N u s).guestsVisited, t < N := by
  intro t ht
  rw [guestsVisited_step] at ht
  split at ht
  · rcases List.mem_insert_iff.1 ht with rfl | hm
    · exact hu
    · exact h t hm
  · exact h t ht

theorem lt_of_mem_exec (N : Nat) (sched : List Nat) (s : State)
    (hs : ∀ u ∈ sched, u < N) (h : ∀ t ∈ s.guestsVisited, t < N) :
    ∀ t ∈ (exec N s sched).guestsVisited, t < N := by
  induction sched generalizing s with
  | nil => exact h
  | cons u sched ih =>
    exact ih (admireVaseStep N u s) (fun v hv => hs v (List.mem_cons_of_mem _ hv))
      (lt_of_mem_step N u s (hs u (List.mem_cons_self _ _)) h)

/-- A duplicate-free list of naturals below `N` has at most `N` elements, and
exactly `N` when it has them all. -/
theorem length_le_of_nodup (N : Nat) (l : List Nat) (hd : l.Nodup) (hl : ∀ t ∈ l, t < N) :
    l.length ≤ N ∧ ((∀ t, t < N → t ∈ l) → l.length = N) := by
  have hcard : l.toFinset.card = l.length := List.toFinset_card_of_nodup hd
  have hsub : l.toFinset ⊆ Finset.range N := by
    intro t ht
    exact Finset.mem_range.2 (hl t (List.mem_toFinset.1 ht))
  have hle := Finset.card_le_card hsub
  rw [Finset.card_range] at hle
  refine ⟨by omega, fun hall => ?_⟩
  have hsup : Finset.range N ⊆ l.toFinset := by
    intro t ht
    exact List.mem_toFinset.2 (hall t (Finset.mem_range.1 ht))
  have hge := Finset.card_le_card hsup
  rw [Finset.card_range] at hge
  omega

/-- A thread that is in the set changes neither the sign nor the set. -/
theorem visited_step_frame (N u : Nat) (s : State) (h : Inv s) (hu : u ∈ s.guestsVisited) :
    (admireVaseStep N u s).roomStatus = s.roomStatus ∧
    (admireVaseStep N u s).guestsVisited = s.guestsVisited := by
  have hv : ¬ (s.pc u).visiting = true := fun hv => h.visiting_not_mem u hv hu
  rw [roomStatus_step, guestsVisited_step]
  cases hpc : s.pc u <;> simp_all [Loc.visiting]

/-- A thread that has completed a critical section is in the set. -/
theorem mem_of_completions (N t : Nat) (sched : List Nat) (s : State) (h : Inv s)
    (hc : 1 ≤ completions N t s sched) : t ∈ (exec N s sched).guestsVisited := by
  induction sched generalizing s with
  | nil => simp [completions] at hc
  | cons u sched ih =>
    simp only [completions] at hc
    by_cases hnow : u = t ∧ s.pc t = Loc.unlock
    · exact mem_exec N t sched _ (mem_step N u t s (h.unlock_mem t hnow.2))
    · rw [if_neg hnow] at hc
      exact ih (admireVaseStep N u s) (vase_inv_step N u s h) (by omega)

/-- The room holds at most one thread, and the sign says `BUSY` exactly then. -/
theorem room_exclusive (s : State) (h : Inv s) :
    (∀ t u, (s.pc t).inRoom = true → (s.pc u).inRoom = true → t = u) ∧
    (s.roomStatus = Status.BUSY ↔
      ∃ t, (s.pc t).inRoom = true ∧ ∀ u, (s.pc u).inRoom = true → u = t) := by
  have hlock : ∀ t, (s.pc t).inRoom = true → s.mutex = some t := fun t ht =>
    (h.locked_iff t).1 (by revert ht; cases s.pc t <;> simp [Loc.inRoom, Loc.locked])
  have huniq : ∀ t u, (s.pc t).inRoom = true → (s.pc u).inRoom = true → t = u := by
    intro t u ht hu
    have h1 := hlock t ht
    have h2 := hlock u hu
    rw [h1] at h2
    exact Option.some.inj h2
  refine ⟨huniq, fun hb => ?_, fun ⟨t, ht, _⟩ => ?_⟩
  · cases hm : s.mutex with
    | none =>
      have := h.free_available hm
      rw [this] at hb
      cases hb
    | some t =>
      have ht := (h.busy_iff t hm).1 hb
      exact ⟨t, ht, fun u hu => huniq u t hu ht⟩
  · exact (h.busy_iff t (hlock t ht)).2 ht

/-! ### Results -/

/-- C7: in every state the threads can reach, at most one thread is between
its own `roomStatus = BUSY` and its own `roomStatus = AVAILABLE`, and
`roomStatus` is `BUSY` exactly when one thread, and only one, is there. -/
theorem mutual_exclusion (N : Nat) (sched : List Nat) :
    (∀ t u, ((exec N init sched).pc t).inRoom = true →
      ((exec N init sched).pc u).inRoom = true → t = u) ∧
    ((exec N init sched).roomStatus = Status.BUSY ↔
      ∃ t, ((exec N init sched).pc t).inRoom = true ∧
        ∀ u, ((exec N init sched).pc u).inRoom = true → u = t) :=
  room_exclusive _ (vase_inv_exec N sched init vase_inv_init)

/-- C8: in every state reached by a schedule of the threads `0 .. N-1`,
`guestsVisited` holds only indices below `N`, without repetition, so its size
is at most `N`; no step of any thread makes it smaller; a thread that is in it
changes neither `roomStatus` nor `guestsVisited`; and when every thread below
`N` has completed a critical section, the size is `N` and every thread is in
the set exactly once. -/
theorem visited_complete (N : Nat) (sched : List Nat) (hs : ∀ u ∈ sched, u < N) :
    (∀ t ∈ (exec N init sched).guestsVisited, t < N) ∧
    (exec N init sched).guestsVisited.length ≤ N ∧
    (exec N init sched).guestsVisited.Nodup ∧
    (∀ u, (exec N init sched).guestsVisited.length
      ≤ (admireVaseStep N u (exec N init sched)).guestsVisited.length) ∧
    (∀ u ∈ (exec N init sched).guestsVisited,
      (admireVaseStep N u (exec N init sched)).roomStatus = (exec N init sched).roomStatus ∧
      (admireVaseStep N u (exec N init sched)).guestsVisited
        = (exec N init sched).guestsVisited) ∧
    ((∀ t, t < N → 1 ≤ completions N t init sched) →
      (exec N init sched).guestsVisited.length = N ∧
      ∀ t, t < N → (exec N init sched).guestsVisited.count t = 1) := by
  have hinv := vase_inv_exec N sched init vase_inv_init
  have hlt := lt_of_mem_exec N sched init hs (by simp [init])
  have hlen := length_le_of_nodup N _ hinv.nodup hlt
  refine ⟨hlt, hlen.1, hinv.nodup, fun u => length_le_step N u _,
    fun u hu => visited_step_frame N u _ hinv hu, fun hall => ?_⟩
  have hmem : ∀ t, t < N → t ∈ (exec N init sched).guestsVisited := fun t ht =>
    mem_of_completions N t sched init vase_inv_init (hall t ht)
  exact ⟨hlen.2 hmem, fun t ht => List.count_eq_one_of_mem hinv.nodup (hmem t ht)⟩

/-- Instance of C8: two threads taking turns, thread 1 blocked on the mutex
while thread 0 is in the room; both complete a critical section and the set
ends with two elements. -/
theorem visited_complete_witness :
    (∀ u ∈ [0, 1, 0, 1, 0, 1, 0, 1, 0, 1, 0, 1, 0, 1, 0, 1, 0, 1, 0, 1, 0, 1, 0, 1, 0, 1, 0, 1, 0, 1, 0, 1, 0, 1], u < 2) ∧
    (∀ t, t < 2 → 1 ≤ completions 2 t init [0, 1, 0, 1, 0, 1, 0, 1, 0, 1, 0, 1, 0, 1, 0, 1, 0, 1, 0, 1, 0, 1, 0, 1, 0, 1, 0, 1, 0, 1, 0, 1, 0, 1]) ∧
    (exec 2 init [0, 1, 0, 1, 0, 1, 0, 1, 0, 1, 0, 1, 0, 1, 0, 1, 0, 1, 0, 1, 0, 1, 0, 1, 0, 1, 0, 1, 0, 1, 0, 1, 0, 1]).guestsVisited.length = 2 :=
  ⟨by decide, by decide,
    ((visited_complete 2 [0, 1, 0, 1, 0, 1, 0, 1, 0, 1, 0, 1, 0, 1, 0, 1, 0, 1, 0, 1, 0, 1, 0, 1, 0, 1, 0, 1, 0, 1, 0, 1, 0, 1] (by decide)).2.2.2.2.2 (by decide)).1⟩

/-- C9, as stated, fails: no schedule reaches a state in which `roomStatus` is
`BUSY` while the mutex is free. -/
theorem no_busy_with_free_lock :
    ¬ ∃ (N : Nat) (sched : List Nat),
      (exec N init sched).roomStatus = Status.BUSY ∧ (exec N init sched).mutex = none := by
  rintro ⟨N, sched, hb, hm⟩
  have := (vase_inv_exec N sched init vase_inv_init).free_available hm
  rw [this] at hb
  cases hb

/-- C9, amended: the mutex is held during the hold.  In every reachable state
in which thread `t` is between its `roomStatus = BUSY` and its
`roomStatus = AVAILABLE`, `roomStatus` is `BUSY`, `t` holds the mutex, no other
thread is between `lock` and `unlock`, and a thread that tries `mutex.lock()`
is blocked: its step leaves the state unchanged. -/
theorem lock_held_during_hold (N : Nat) (sched : List Nat) (t : Nat)
    (ht : ((exec N init sched).pc t).inRoom = true) :
    (exec N init sched).roomStatus = Status.BUSY ∧
    (exec N init sched).mutex = some t ∧
    (∀ u, u ≠ t → ((exec N init sched).pc u).locked = false) ∧
    (∀ u, (exec N init sched).pc u = Loc.lock →
      admireVaseStep N u (exec N init sched) = exec N init sched) := by
  have hinv := vase_inv_exec N sched init vase_inv_init
  have hm : (exec N init sched).mutex = some t :=
    (hinv.locked_iff t).1 (by revert ht; cases (exec N init sched).pc t <;>
      simp [Loc.inRoom, Loc.locked])
  refine ⟨(hinv.busy_iff t hm).2 ht, hm, fun u hu => ?_, fun u hpc => ?_⟩
  · cases hl : ((exec N init sched).pc u).locked
    · rfl
    · have := (hinv.locked_iff u).1 hl
      rw [hm] at this
      exact absurd (Option.some.inj this).symm hu
  · exact step_lock_held N u t _ hpc hm

/-- Instance of the amended C9: thread 0 has reached the hold, thread 1 waits
at `mutex.lock()`. -/
theorem lock_held_during_hold_witness :
    ((exec 2 init [0, 1, 0, 0, 0]).pc 0).inRoom = true ∧
    (exec 2 init [0, 1, 0, 0, 0]).pc 1 = Loc.lock ∧
    (exec 2 init [0, 1, 0, 0, 0]).roomStatus = Status.BUSY ∧
    (exec 2 init [0, 1, 0, 0, 0]).mutex = some 0 ∧
    (∀ u, u ≠ 0 → ((exec 2 init [0, 1, 0, 0, 0]).pc u).locked = false) ∧
    (∀ u, (exec 2 init [0, 1, 0, 0, 0]).pc u = Loc.lock →
      admireVaseStep 2 u (exec 2 init [0, 1, 0, 0, 0]) = exec 2 init [0, 1, 0, 0, 0]) :=
  ⟨by decide, by decide, lock_held_during_hold 2 [0, 1, 0, 0, 0] 0 (by decide)⟩

end CrystalVase

/-- C10: with one guest, one critical section of the only thread reaches the
exit condition.  Counting Protocol: from the initial state a leader critical
section with `activeThreadIndex = 0` gives `currentCount = 1`,
`guestsPicked[0]` true and the cupcake available.  Mutual-Exclusion Protocol:
the eight statements of one pass of thread 0 through its loop are one
completed critical section, after which the set has one element, the sign is
`AVAILABLE`, the mutex is free, and the next loop test leaves the loop. -/
theorem boundary_single_guest :
    (Birthday.checkCupcake 0 (Birthday.init 1)
        = { guestsPicked := [true], isCupcakeAvailable := true, currentCount := 1 } ∧
      1 ≤ (Birthday.checkCupcake 0 (Birthday.init 1)).currentCount) ∧
    (CrystalVase.completions 1 0 CrystalVase.init [0, 0, 0, 0, 0, 0, 0, 0] = 1 ∧
      (CrystalVase.exec 1 CrystalVase.init [0, 0, 0, 0, 0, 0, 0, 0]).guestsVisited = [0] ∧
      (CrystalVase.exec 1 CrystalVase.init [0, 0, 0, 0, 0, 0, 0, 0]).guestsVisited.length = 1 ∧
      (CrystalVase.exec 1 CrystalVase.init [0, 0, 0, 0, 0, 0, 0, 0]).roomStatus
        = CrystalVase.Status.AVAILABLE ∧
      (CrystalVase.exec 1 CrystalVase.init [0, 0, 0, 0, 0, 0, 0, 0]).mutex = none ∧
      (CrystalVase.exec 1 CrystalVase.init [0, 0, 0, 0, 0, 0, 0, 0, 0]).pc 0
        = CrystalVase.Loc.done) := by
  decide
